import Mathlib

/-!
Verification of the slot allocation and lifecycle engine of the TUIO → PureData
converter (src/tuio2.py, class TuioToPdConverter).

The engine's state (fields of the Python object) is modelled by `ConvState`:
  * `id_to_point` — the Python dict mapping TUIO session ids to point indices,
    modelled extensionally as a partial map `Int → Option Nat` (the code only
    looks up, inserts and deletes single keys; it never iterates the dict).
  * `points` — the list of 20 point records `(x, y, vx, vy, accel)`.
  * `active_ids` — the Python set of active session ids, as a `Finset Int`.
  * `last_send_time`, `send_interval` — the publish-gate clock variables.

Coordinates are modelled as rationals: the source only stores them and compares
x against the sentinel -1; no floating-point arithmetic is performed on them.
-/

set_option maxRecDepth 10000

namespace Tuio2

/-- One point record, the tuple `(x, y, x_vel, y_vel, accel)` stored in
`self.points` (src/tuio2.py line 54). -/
structure SlotRecord where
  x : ℚ
  y : ℚ
  vx : ℚ
  vy : ℚ
  accel : ℚ
  deriving DecidableEq, Repr

/-- The unoccupied sentinel record `(-1, -1, 0, 0, 0)` (lines 54, 130). -/
def emptyRecord : SlotRecord := ⟨-1, -1, 0, 0, 0⟩

/-- `self.num_points = 20` (line 46). -/
def num_points : Nat := 20

/-- The mutable state of `TuioToPdConverter` relevant to the engine. -/
structure ConvState where
  id_to_point : Int → Option Nat
  points : List SlotRecord
  active_ids : Finset Int
  last_send_time : ℚ
  send_interval : ℚ

/-- `self.id_to_point[k] = v` — Python dict assignment, modelled pointwise. -/
def dictInsert (m : Int → Option Nat) (k : Int) (v : Nat) : Int → Option Nat :=
  fun a => if a = k then some v else m a

/-- `del self.id_to_point[k]` — Python dict deletion, modelled pointwise. -/
def dictErase (m : Int → Option Nat) (k : Int) : Int → Option Nat :=
  fun a => if a = k then none else m a

/-- The state built by `__init__` (lines 46-61): empty binding dict, 20
sentinel records, empty active set, `send_interval = 0.01`.  Python records
the wall-clock construction time in `last_send_time`; it enters here as the
parameter `t`. -/
def initState (t : ℚ) : ConvState :=
  { id_to_point := fun _ => none
    points := List.replicate num_points emptyRecord
    active_ids := ∅
    last_send_time := t
    send_interval := 1/100 }

/-- The search loop of `assign_new_id` (lines 107-108): index of the first
record with `points[i][0] == -1`, if any. -/
def findFreeSlot : List SlotRecord → Option Nat
  | [] => none
  | r :: rest => if r.x = -1 then some 0 else (findFreeSlot rest).map (· + 1)

/-- `assign_new_id` (lines 104-119): bind the id to the first free point, or
to point 0 when no point is free (the overflow policy), and add the id to
`active_ids` in either case. -/
def assign_new_id (s : ConvState) (session_id : Int) (x y x_vel y_vel accel : ℚ) :
    ConvState :=
  match findFreeSlot s.points with
  | some i =>
      { s with
        id_to_point := dictInsert s.id_to_point session_id i
        points := s.points.set i ⟨x, y, x_vel, y_vel, accel⟩
        active_ids := insert session_id s.active_ids }
  | none =>
      { s with
        id_to_point := dictInsert s.id_to_point session_id 0
        points := s.points.set 0 ⟨x, y, x_vel, y_vel, accel⟩
        active_ids := insert session_id s.active_ids }

/-- `process_set` (lines 94-102): refresh the bound point in place, else
assign a new id. -/
def process_set (s : ConvState) (session_id : Int) (x y x_vel y_vel accel : ℚ) :
    ConvState :=
  match s.id_to_point session_id with
  | some point_index =>
      { s with points := s.points.set point_index ⟨x, y, x_vel, y_vel, accel⟩ }
  | none => assign_new_id s session_id x y x_vel y_vel accel

/-- Body of the removal loop of `process_alive` (lines 127-132), for one
removed id: if it has a binding, reset its point to the sentinel and delete
the binding. -/
def releaseId (s : ConvState) (removed_id : Int) : ConvState :=
  match s.id_to_point removed_id with
  | some point_index =>
      { s with
        points := s.points.set point_index emptyRecord
        id_to_point := dictErase s.id_to_point removed_id }
  | none => s

/-- Ascending enumeration of a finite set of ids (insertion sort of the
underlying multiset; well defined because sorting two permuted lists yields
the same sorted list).  Structurally recursive, hence kernel-computable. -/
def finsetAscList (s : Finset Int) : List Int :=
  Quot.liftOn s.val (fun l => l.insertionSort (· ≤ ·)) fun a b h =>
    List.eq_of_perm_of_sorted
      ((List.perm_insertionSort _ a).trans (h.trans (List.perm_insertionSort _ b).symm))
      (List.sorted_insertionSort _ a)
      (List.sorted_insertionSort _ b)

/-- `process_alive` (lines 121-135): release every id in
`active_ids - new_active_ids`, then replace the active set wholesale.
Python iterates the removed set in an unspecified order; every iteration
touches only its own key of the dict and writes the same sentinel record,
so the result is order-independent, and we fix ascending order. -/
def process_alive (s : ConvState) (new_active_ids : Finset Int) : ConvState :=
  let removed_ids := s.active_ids \ new_active_ids
  let s1 := (finsetAscList removed_ids).foldl releaseId s
  { s1 with active_ids := new_active_ids }

/-- The snapshot handed to PureData by `send_to_puredata` (lines 137-145):
one `(index, record)` pair per point, in index order.  The socket send
itself is external transport, outside the verified engine. -/
def send_to_puredata (s : ConvState) : List (Nat × SlotRecord) :=
  (List.range num_points).map fun i => (i, s.points.getD i emptyRecord)

/-- A decoded OSC argument as fed to `handle_tuio_message`: the wire carries
strings and numbers. -/
inductive OscArg where
  | str (s : String)
  | num (q : ℚ)
  deriving DecidableEq

/-- Python `int()` applied to a numeric value: truncation toward zero. -/
def ratTrunc (q : ℚ) : Int := if 0 ≤ q then q.floor else q.ceil

/-- `int(arg)` on a decoded argument.  On a non-numeric string Python would
raise; the spec's input contract says such input never reaches the engine,
and we model the raise as an `Except.error`. -/
def pyIntOf : OscArg → Except String Int
  | .num q => .ok (ratTrunc q)
  | .str _ => .error "int(): non-numeric argument (decoder contract violation)"

/-- `float(arg)` on a decoded argument, analogously. -/
def pyFloatOf : OscArg → Except String ℚ
  | .num q => .ok q
  | .str _ => .error "float(): non-numeric argument (decoder contract violation)"

/-- The `fseq` branch of `handle_tuio_message` (lines 87-92), i.e. the
publisher gate: publish iff `now - last_send_time >= send_interval`, and
record `now` as the new `last_send_time` exactly when publishing.  The
returned boolean says whether a publish happened. -/
def fseq_step (now : ℚ) (s : ConvState) : ConvState × Bool :=
  if now - s.last_send_time ≥ s.send_interval then
    ({ s with last_send_time := now }, true)
  else
    (s, false)

/-- `handle_tuio_message` (lines 63-92).  `now` is the value `time.time()`
would return during this call.  The result pairs the new state with the
"published" flag; `Except.error` models an uncaught Python exception from a
type coercion (never reached under the decoder contract). -/
def handle_tuio_message (now : ℚ) (s : ConvState) (args : List OscArg) :
    Except String (ConvState × Bool) :=
  match args with
  | [] => .ok (s, false)
  | command :: rest =>
    if command = OscArg.str "set" then
      -- Formato: set session_id x y x_vel y_vel accel; len(args) < 7 is ignored
      match rest with
      | a1 :: a2 :: a3 :: a4 :: a5 :: a6 :: _ => do
          let session_id ← pyIntOf a1
          let x ← pyFloatOf a2
          let y ← pyFloatOf a3
          let x_vel ← pyFloatOf a4
          let y_vel ← pyFloatOf a5
          let accel ← pyFloatOf a6
          .ok (process_set s session_id x y x_vel y_vel accel, false)
      | _ => .ok (s, false)
    else if command = OscArg.str "alive" then do
      let ids ← rest.mapM pyIntOf
      .ok (process_alive s ids.toFinset, false)
    else if command = OscArg.str "fseq" then
      .ok (fseq_step now s)
    else
      .ok (s, false)

/-! ### Event traces

For the reachability claims, a decoded engine event is either an update
(`set`) or a liveness announcement (`alive`); frame boundaries do not touch
the tables. -/

/-- A decoded engine event. -/
inductive Event where
  | set (id : Int) (x y vx vy accel : ℚ)
  | alive (ids : Finset Int)

/-- Apply one event to the state. -/
def step (s : ConvState) : Event → ConvState
  | .set id x y vx vy accel => process_set s id x y vx vy accel
  | .alive ids => process_alive s ids

/-- Apply a list of events in order. -/
def run (s : ConvState) : List Event → ConvState
  | [] => s
  | e :: es => run (step s e) es

/-- Whether some point is currently free (`x == -1`). -/
def hasFree (s : ConvState) : Bool := (findFreeSlot s.points).isSome

/-- The trace condition of the bijection claim: no update event is ever
applied in a state where all slots are occupied. -/
def okRun (s : ConvState) : List Event → Bool
  | [] => true
  | e :: es =>
    (match e with
     | .set _ _ _ _ _ _ => hasFree s
     | .alive _ => true) && okRun (step s e) es

/-- No update event of the trace carries the occupancy sentinel `x = -1`. -/
def noSentinelX : List Event → Bool
  | [] => true
  | .set _ x _ _ _ _ :: es => decide (x ≠ -1) && noSentinelX es
  | .alive _ :: es => noSentinelX es

/-- Slot `i` is occupied: its record's first component differs from the
sentinel. -/
def Occupied (s : ConvState) (i : Nat) : Prop :=
  (s.points.getD i emptyRecord).x ≠ -1

/-- The binding map is a bijection between bound ids and occupied slot
indices: injective, every binding targets an occupied in-range slot, and
every occupied slot is the target of some binding.  (Each id is bound to at
most one slot by construction, the dict being a map.) -/
def BindingBijection (s : ConvState) : Prop :=
  (∀ a b i, s.id_to_point a = some i → s.id_to_point b = some i → a = b) ∧
  (∀ a i, s.id_to_point a = some i → i < num_points ∧ Occupied s i) ∧
  (∀ i, i < num_points → Occupied s i → ∃ a, s.id_to_point a = some i)

/-- The full state invariant: the point list has its fixed length and the
binding bijection holds. -/
def StateInv (s : ConvState) : Prop :=
  s.points.length = num_points ∧ BindingBijection s

/-! ### List and dictionary helper lemmas -/

theorem getD_set_self (l : List SlotRecord) (i : Nat) (r d : SlotRecord)
    (h : i < l.length) : (l.set i r).getD i d = r := by
  simp [List.getD, List.getElem?_set_self, h]

theorem getD_set_ne (l : List SlotRecord) (i j : Nat) (r d : SlotRecord)
    (h : i ≠ j) : (l.set i r).getD j d = l.getD j d := by
  simp [List.getD, List.getElem?_set_ne, h]

theorem getD_replicate (n i : Nat) (r d : SlotRecord) (h : i < n) :
    (List.replicate n r).getD i d = r := by
  induction n generalizing i with
  | zero => omega
  | succ n ih =>
    cases i with
    | zero => simp [List.replicate_succ]
    | succ i => simpa [List.replicate_succ] using ih i (by omega)

theorem dictInsert_apply (m : Int → Option Nat) (k : Int) (v : Nat) (a : Int) :
    dictInsert m k v a = if a = k then some v else m a := rfl

theorem dictErase_apply (m : Int → Option Nat) (k : Int) (a : Int) :
    dictErase m k a = if a = k then none else m a := rfl

/-! ### findFreeSlot characterizations -/

theorem findFreeSlot_eq_none (l : List SlotRecord) :
    findFreeSlot l = none ↔ ∀ r ∈ l, r.x ≠ -1 := by
  induction l with
  | nil => simp [findFreeSlot]
  | cons r rest ih =>
    by_cases h : r.x = -1 <;> simp [findFreeSlot, h, ih]

theorem findFreeSlot_some (l : List SlotRecord) (j : Nat)
    (h : findFreeSlot l = some j) :
    j < l.length ∧ (l.getD j emptyRecord).x = -1 := by
  induction l generalizing j with
  | nil => simp [findFreeSlot] at h
  | cons r rest ih =>
    by_cases hr : r.x = -1
    · simp [findFreeSlot, hr] at h
      subst h
      simpa using hr
    · simp [findFreeSlot, hr] at h
      obtain ⟨k, hk, rfl⟩ := h
      have hrec := ih k hk
      refine ⟨by simpa using Nat.succ_lt_succ hrec.1, ?_⟩
      simpa using hrec.2

theorem findFreeSlot_eq_some (l : List SlotRecord) (j : Nat)
    (hj : j < l.length) (hfree : (l.getD j emptyRecord).x = -1)
    (hmin : ∀ k, k < j → (l.getD k emptyRecord).x ≠ -1) :
    findFreeSlot l = some j := by
  induction l generalizing j with
  | nil => simp at hj
  | cons r rest ih =>
    cases j with
    | zero =>
      simp only [List.getD_cons_zero] at hfree
      simp [findFreeSlot, hfree]
    | succ j =>
      have hr : r.x ≠ -1 := by simpa using hmin 0 (Nat.succ_pos j)
      have hrec := ih j (by simpa using hj) (by simpa using hfree)
        (fun k hk => by simpa using hmin (k + 1) (by omega))
      simp [findFreeSlot, hr, hrec]

/-! ### Path characterizations of process_set -/

theorem process_set_bound (s : ConvState) (id : Int) (i : Nat) (x y vx vy a : ℚ)
    (h : s.id_to_point id = some i) :
    process_set s id x y vx vy a =
      { s with points := s.points.set i ⟨x, y, vx, vy, a⟩ } := by
  simp [process_set, h]

theorem process_set_free (s : ConvState) (id : Int) (j : Nat) (x y vx vy a : ℚ)
    (hid : s.id_to_point id = none) (hj : findFreeSlot s.points = some j) :
    process_set s id x y vx vy a =
      { s with
        id_to_point := dictInsert s.id_to_point id j
        points := s.points.set j ⟨x, y, vx, vy, a⟩
        active_ids := insert id s.active_ids } := by
  simp [process_set, hid, assign_new_id, hj]

theorem process_set_overflow (s : ConvState) (id : Int) (x y vx vy a : ℚ)
    (hid : s.id_to_point id = none) (hfull : findFreeSlot s.points = none) :
    process_set s id x y vx vy a =
      { s with
        id_to_point := dictInsert s.id_to_point id 0
        points := s.points.set 0 ⟨x, y, vx, vy, a⟩
        active_ids := insert id s.active_ids } := by
  simp [process_set, hid, assign_new_id, hfull]

/-! ### Characterizations of process_alive -/

theorem releaseId_id_to_point (s : ConvState) (rid a : Int) :
    (releaseId s rid).id_to_point a = if a = rid then none else s.id_to_point a := by
  by_cases har : a = rid
  · subst har
    unfold releaseId
    cases h : s.id_to_point a with
    | none => simp [h]
    | some i => simp [dictErase_apply]
  · unfold releaseId
    cases h : s.id_to_point rid with
    | none => simp [har]
    | some i => simp [dictErase_apply, har]

theorem releaseId_length (s : ConvState) (rid : Int) :
    (releaseId s rid).points.length = s.points.length := by
  unfold releaseId
  cases h : s.id_to_point rid <;> simp

theorem releaseId_active (s : ConvState) (rid : Int) :
    (releaseId s rid).active_ids = s.active_ids := by
  unfold releaseId
  cases h : s.id_to_point rid <;> rfl

theorem foldl_release_id_to_point (l : List Int) (s : ConvState) (a : Int) :
    (l.foldl releaseId s).id_to_point a = if a ∈ l then none else s.id_to_point a := by
  induction l generalizing s with
  | nil => simp
  | cons rid rest ih =>
    simp only [List.foldl_cons, ih, releaseId_id_to_point]
    by_cases hmem : a ∈ rest
    · simp [hmem]
    · by_cases har : a = rid <;> simp [hmem, har]

theorem foldl_release_length (l : List Int) (s : ConvState) :
    (l.foldl releaseId s).points.length = s.points.length := by
  induction l generalizing s with
  | nil => rfl
  | cons rid rest ih => simp only [List.foldl_cons, ih, releaseId_length]

theorem releaseId_eq_of_none (s : ConvState) (rid : Int)
    (h : s.id_to_point rid = none) : releaseId s rid = s := by
  simp [releaseId, h]

theorem releaseId_points_some (s : ConvState) (rid : Int) (j : Nat)
    (h : s.id_to_point rid = some j) :
    (releaseId s rid).points = s.points.set j emptyRecord := by
  simp [releaseId, h]

theorem foldl_release_points (l : List Int) (s : ConvState) (i : Nat)
    (hnd : l.Nodup)
    (hb : ∀ a j, s.id_to_point a = some j → j < s.points.length) :
    (l.foldl releaseId s).points.getD i emptyRecord =
      if ∃ r ∈ l, s.id_to_point r = some i then emptyRecord
      else s.points.getD i emptyRecord := by
  induction l generalizing s with
  | nil => simp
  | cons rid rest ih =>
    have hrid : rid ∉ rest := (List.nodup_cons.mp hnd).1
    have hndr : rest.Nodup := (List.nodup_cons.mp hnd).2
    have hmap : ∀ r ∈ rest, (releaseId s rid).id_to_point r = s.id_to_point r := by
      intro r hr
      rw [releaseId_id_to_point]
      have hne : r ≠ rid := fun he => hrid (he ▸ hr)
      simp [hne]
    have hb' : ∀ a j, (releaseId s rid).id_to_point a = some j →
        j < (releaseId s rid).points.length := by
      intro a j hj
      rw [releaseId_id_to_point] at hj
      rw [releaseId_length]
      by_cases har : a = rid
      · simp [har] at hj
      · rw [if_neg har] at hj
        exact hb a j hj
    have hiff : (∃ r ∈ rest, (releaseId s rid).id_to_point r = some i) ↔
        (∃ r ∈ rest, s.id_to_point r = some i) := by
      constructor
      · rintro ⟨r, hr, hmr⟩
        exact ⟨r, hr, by rw [hmap r hr] at hmr; exact hmr⟩
      · rintro ⟨r, hr, hmr⟩
        exact ⟨r, hr, by rw [hmap r hr]; exact hmr⟩
    simp only [List.foldl_cons]
    rw [ih (releaseId s rid) hndr hb']
    simp only [hiff]
    cases hin : s.id_to_point rid with
    | none =>
      rw [releaseId_eq_of_none s rid hin]
      have hcons : (∃ r ∈ rid :: rest, s.id_to_point r = some i) ↔
          (∃ r ∈ rest, s.id_to_point r = some i) := by
        constructor
        · rintro ⟨r, hr, hmr⟩
          rcases List.mem_cons.mp hr with hrr | hrr
          · rw [hrr, hin] at hmr; exact absurd hmr (by simp)
          · exact ⟨r, hrr, hmr⟩
        · rintro ⟨r, hr, hmr⟩
          exact ⟨r, List.mem_cons_of_mem _ hr, hmr⟩
      simp only [hcons]
    | some j =>
      rw [releaseId_points_some s rid j hin]
      by_cases hrest : ∃ r ∈ rest, s.id_to_point r = some i
      · have hcons : ∃ r ∈ rid :: rest, s.id_to_point r = some i := by
          obtain ⟨r, hr, hmr⟩ := hrest
          exact ⟨r, List.mem_cons_of_mem _ hr, hmr⟩
        rw [if_pos hrest, if_pos hcons]
      · rw [if_neg hrest]
        by_cases hij : i = j
        · subst hij
          have hcons : ∃ r ∈ rid :: rest, s.id_to_point r = some i :=
            ⟨rid, List.mem_cons_self _ _, hin⟩
          rw [if_pos hcons]
          exact getD_set_self _ _ _ _ (hb rid i hin)
        · have hcons : ¬ ∃ r ∈ rid :: rest, s.id_to_point r = some i := by
            rintro ⟨r, hr, hmr⟩
            rcases List.mem_cons.mp hr with hrr | hrr
            · rw [hrr, hin] at hmr
              exact hij (by simpa using hmr.symm)
            · exact hrest ⟨r, hrr, hmr⟩
          rw [if_neg hcons]
          exact getD_set_ne _ _ _ _ _ (fun he => hij he.symm)

theorem mem_finsetAscList (s : Finset Int) (a : Int) :
    a ∈ finsetAscList s ↔ a ∈ s := by
  rcases s with ⟨val, nd⟩
  induction val using Quot.inductionOn with
  | h l =>
    show a ∈ l.insertionSort (· ≤ ·) ↔ _
    rw [(List.perm_insertionSort (· ≤ ·) l).mem_iff]
    exact Iff.rfl

theorem nodup_finsetAscList (s : Finset Int) : (finsetAscList s).Nodup := by
  rcases s with ⟨val, nd⟩
  induction val using Quot.inductionOn with
  | h l =>
    have hnd : l.Nodup := nd
    exact ((List.perm_insertionSort (· ≤ ·) l).nodup_iff).mpr hnd

theorem process_alive_id_to_point (s : ConvState) (S : Finset Int) (a : Int) :
    (process_alive s S).id_to_point a =
      if a ∈ s.active_ids ∧ a ∉ S then none else s.id_to_point a := by
  have hmem : a ∈ finsetAscList (s.active_ids \ S) ↔ (a ∈ s.active_ids ∧ a ∉ S) := by
    rw [mem_finsetAscList, Finset.mem_sdiff]
  simp only [process_alive, foldl_release_id_to_point, hmem]

theorem process_alive_points (s : ConvState) (S : Finset Int) (i : Nat)
    (hb : ∀ a j, s.id_to_point a = some j → j < s.points.length) :
    (process_alive s S).points.getD i emptyRecord =
      if ∃ r ∈ s.active_ids \ S, s.id_to_point r = some i then emptyRecord
      else s.points.getD i emptyRecord := by
  have hiff : (∃ r ∈ finsetAscList (s.active_ids \ S), s.id_to_point r = some i) ↔
      (∃ r ∈ s.active_ids \ S, s.id_to_point r = some i) := by
    constructor
    · rintro ⟨r, hr, hmr⟩
      rw [mem_finsetAscList] at hr
      exact ⟨r, hr, hmr⟩
    · rintro ⟨r, hr, hmr⟩
      refine ⟨r, ?_, hmr⟩
      rw [mem_finsetAscList]
      exact hr
  simp only [process_alive]
  rw [foldl_release_points _ _ _ (nodup_finsetAscList _) hb]
  simp only [hiff]

theorem process_alive_active (s : ConvState) (S : Finset Int) :
    (process_alive s S).active_ids = S := rfl

theorem process_alive_length (s : ConvState) (S : Finset Int) :
    (process_alive s S).points.length = s.points.length := by
  simp only [process_alive, foldl_release_length]

/-! ### Invariant preservation -/

theorem initState_inv (t : ℚ) : StateInv (initState t) := by
  refine ⟨by simp [initState, num_points], ?_, ?_, ?_⟩
  · intro a b i ha
    simp [initState] at ha
  · intro a i ha
    simp [initState] at ha
  · intro i hi ho
    exfalso
    apply ho
    show ((initState t).points.getD i emptyRecord).x = -1
    rw [show (initState t).points = List.replicate num_points emptyRecord from rfl]
    rw [getD_replicate _ _ _ _ hi]
    rfl

theorem process_set_inv (s : ConvState) (id : Int) (x y vx vy a : ℚ)
    (hI : StateInv s) (hfree : hasFree s = true) (hx : x ≠ -1) :
    StateInv (process_set s id x y vx vy a) := by
  obtain ⟨hlen, hinj, hbound, hocc⟩ := hI
  cases hmid : s.id_to_point id with
  | some i =>
    rw [process_set_bound s id i x y vx vy a hmid]
    have hilen : i < s.points.length := by rw [hlen]; exact (hbound id i hmid).1
    refine ⟨by simpa using hlen, hinj, ?_, ?_⟩
    · intro b j hb
      refine ⟨(hbound b j hb).1, ?_⟩
      show ((s.points.set i ⟨x, y, vx, vy, a⟩).getD j emptyRecord).x ≠ -1
      by_cases hij : i = j
      · subst hij
        rw [getD_set_self _ _ _ _ hilen]
        exact hx
      · rw [getD_set_ne _ _ _ _ _ hij]
        exact (hbound b j hb).2
    · intro j hj ho
      by_cases hij : i = j
      · subst hij
        exact ⟨id, hmid⟩
      · apply hocc j hj
        show (s.points.getD j emptyRecord).x ≠ -1
        have hthis := ho
        simp only [Occupied] at hthis
        rwa [getD_set_ne _ _ _ _ _ hij] at hthis
  | none =>
    obtain ⟨j, hj⟩ := Option.isSome_iff_exists.mp hfree
    rw [process_set_free s id j x y vx vy a hmid hj]
    obtain ⟨hjlen, hjfree⟩ := findFreeSlot_some _ _ hj
    have hjn : j < num_points := by rw [← hlen]; exact hjlen
    refine ⟨by simpa using hlen, ?_, ?_, ?_⟩
    · intro b c i' hb hc
      simp only [dictInsert_apply] at hb hc
      by_cases hbid : b = id <;> by_cases hcid : c = id
      · rw [hbid, hcid]
      · rw [if_pos hbid] at hb
        rw [if_neg hcid] at hc
        exfalso
        have hji : j = i' := by simpa using hb
        subst hji
        exact (hbound c j hc).2 hjfree
      · rw [if_neg hbid] at hb
        rw [if_pos hcid] at hc
        exfalso
        have hji : j = i' := by simpa using hc
        subst hji
        exact (hbound b j hb).2 hjfree
      · rw [if_neg hbid] at hb
        rw [if_neg hcid] at hc
        exact hinj b c i' hb hc
    · intro b i' hb
      simp only [dictInsert_apply] at hb
      by_cases hbid : b = id
      · rw [if_pos hbid] at hb
        have hji : j = i' := by simpa using hb
        subst hji
        refine ⟨hjn, ?_⟩
        show ((s.points.set j ⟨x, y, vx, vy, a⟩).getD j emptyRecord).x ≠ -1
        rw [getD_set_self _ _ _ _ hjlen]
        exact hx
      · rw [if_neg hbid] at hb
        refine ⟨(hbound b i' hb).1, ?_⟩
        have hij : j ≠ i' := by
          intro he
          subst he
          exact (hbound b j hb).2 hjfree
        show ((s.points.set j ⟨x, y, vx, vy, a⟩).getD i' emptyRecord).x ≠ -1
        rw [getD_set_ne _ _ _ _ _ hij]
        exact (hbound b i' hb).2
    · intro i' hi' ho
      by_cases hij : j = i'
      · subst hij
        exact ⟨id, by simp [dictInsert_apply]⟩
      · have ho' : (s.points.getD i' emptyRecord).x ≠ -1 := by
          have hthis := ho
          simp only [Occupied] at hthis
          rwa [getD_set_ne _ _ _ _ _ hij] at hthis
        obtain ⟨b, hb⟩ := hocc i' hi' ho'
        refine ⟨b, ?_⟩
        simp only [dictInsert_apply]
        have hbid : b ≠ id := by
          intro he
          rw [he, hmid] at hb
          cases hb
        rw [if_neg hbid]
        exact hb

theorem process_alive_inv (s : ConvState) (S : Finset Int) (hI : StateInv s) :
    StateInv (process_alive s S) := by
  obtain ⟨hlen, hinj, hbound, hocc⟩ := hI
  have hb : ∀ a j, s.id_to_point a = some j → j < s.points.length := by
    intro a j h
    rw [hlen]
    exact (hbound a j h).1
  have hsome : ∀ a i, (process_alive s S).id_to_point a = some i →
      s.id_to_point a = some i ∧ ¬(a ∈ s.active_ids ∧ a ∉ S) := by
    intro a i h
    rw [process_alive_id_to_point] at h
    by_cases hc : a ∈ s.active_ids ∧ a ∉ S
    · rw [if_pos hc] at h
      cases h
    · rw [if_neg hc] at h
      exact ⟨h, hc⟩
  refine ⟨by rw [process_alive_length, hlen], ?_, ?_, ?_⟩
  · intro a b i ha hb'
    exact hinj a b i (hsome a i ha).1 (hsome b i hb').1
  · intro a i ha
    obtain ⟨hm, hc⟩ := hsome a i ha
    refine ⟨(hbound a i hm).1, ?_⟩
    have hnex : ¬ ∃ r ∈ s.active_ids \ S, s.id_to_point r = some i := by
      rintro ⟨r, hr, hmr⟩
      have hra : r = a := hinj r a i hmr hm
      subst hra
      exact hc (Finset.mem_sdiff.mp hr)
    show ((process_alive s S).points.getD i emptyRecord).x ≠ -1
    rw [process_alive_points s S i hb, if_neg hnex]
    exact (hbound a i hm).2
  · intro i hi ho
    have hpts := process_alive_points s S i hb
    by_cases hex : ∃ r ∈ s.active_ids \ S, s.id_to_point r = some i
    · exfalso
      apply ho
      show ((process_alive s S).points.getD i emptyRecord).x = -1
      rw [hpts, if_pos hex]
      rfl
    · have ho' : (s.points.getD i emptyRecord).x ≠ -1 := by
        have := ho
        simp only [Occupied] at this
        rwa [hpts, if_neg hex] at this
      obtain ⟨a, ha⟩ := hocc i hi ho'
      refine ⟨a, ?_⟩
      rw [process_alive_id_to_point]
      have hc : ¬(a ∈ s.active_ids ∧ a ∉ S) := by
        rintro ⟨h1, h2⟩
        exact hex ⟨a, Finset.mem_sdiff.mpr ⟨h1, h2⟩, ha⟩
      rw [if_neg hc]
      exact ha

theorem run_inv (es : List Event) (s : ConvState) (hI : StateInv s)
    (hok : okRun s es = true) (hx : noSentinelX es = true) :
    StateInv (run s es) := by
  induction es generalizing s with
  | nil => exact hI
  | cons e rest ih =>
    cases e with
    | set id x y vx vy a =>
      simp only [okRun, Bool.and_eq_true] at hok
      simp only [noSentinelX, Bool.and_eq_true, decide_eq_true_eq] at hx
      exact ih (step s (Event.set id x y vx vy a))
        (process_set_inv s id x y vx vy a hI hok.1 hx.1) hok.2 hx.2
    | alive S =>
      simp only [okRun, Bool.and_eq_true] at hok
      simp only [noSentinelX] at hx
      exact ih (step s (Event.alive S)) (process_alive_inv s S hI) hok.2 hx

/-! ### Concrete states used to instantiate and refute claims -/

/-- A fully-occupied concrete state: every point holds `x = 1`, id 7 is bound
to point 0. -/
def fullState : ConvState :=
  { id_to_point := fun a => if a = 7 then some 0 else none
    points := List.replicate num_points ⟨1, 1, 0, 0, 0⟩
    active_ids := {7}
    last_send_time := 0
    send_interval := 1/100 }

/-- A state with a dangling double binding: ids 1 and 99 both bound to
point 0 (reachable through the overflow policy). -/
def danglingState : ConvState :=
  { id_to_point := fun a => if a = 1 then some 0 else if a = 99 then some 0 else none
    points := (List.replicate num_points emptyRecord).set 0 ⟨1, 1, 0, 0, 0⟩
    active_ids := {1, 99}
    last_send_time := 0
    send_interval := 1/100 }

/-- The state of the spec's liveness test case: ids 1, 2, 3 bound to points
0, 1, 2 with distinct occupied records. -/
def threeBoundState : ConvState :=
  { id_to_point := fun a =>
      if a = 1 then some 0 else if a = 2 then some 1 else if a = 3 then some 2 else none
    points := (((List.replicate num_points emptyRecord).set 0 ⟨2, 2, 0, 0, 0⟩).set 1
        ⟨3, 3, 0, 0, 0⟩).set 2 ⟨4, 4, 0, 0, 0⟩
    active_ids := {1, 2, 3}
    last_send_time := 0
    send_interval := 1/100 }

/-! ### Claim theorems -/

/-- C1: an update for an unbound identifier applied in a state where every
slot is occupied is not rejected: the new record is written to slot 0, the
new identifier is bound to slot 0, every other identifier's binding entry is
left in place, and in particular any previous occupant of slot 0 is still
bound to slot 0 — two identifiers bound to slot 0. -/
theorem overflow_reassigns_slot_zero (s : ConvState) (nid : Int) (x y vx vy a : ℚ)
    (hlen : s.points.length = num_points)
    (hfull : ∀ r ∈ s.points, r.x ≠ -1)
    (hnew : s.id_to_point nid = none) :
    (process_set s nid x y vx vy a).id_to_point nid = some 0 ∧
    (process_set s nid x y vx vy a).points.getD 0 emptyRecord = ⟨x, y, vx, vy, a⟩ ∧
    (∀ b, b ≠ nid → (process_set s nid x y vx vy a).id_to_point b = s.id_to_point b) ∧
    (∀ old, s.id_to_point old = some 0 →
      old ≠ nid ∧ (process_set s nid x y vx vy a).id_to_point old = some 0) := by
  have hff : findFreeSlot s.points = none := (findFreeSlot_eq_none s.points).mpr hfull
  rw [process_set_overflow s nid x y vx vy a hnew hff]
  have h0 : 0 < s.points.length := by rw [hlen]; norm_num [num_points]
  refine ⟨?_, ?_, ?_, ?_⟩
  · simp [dictInsert_apply]
  · show (s.points.set 0 ⟨x, y, vx, vy, a⟩).getD 0 emptyRecord = _
    exact getD_set_self _ _ _ _ h0
  · intro b hb
    simp [dictInsert_apply, hb]
  · intro old hold
    have hne : old ≠ nid := by
      intro he
      rw [he, hnew] at hold
      cases hold
    refine ⟨hne, ?_⟩
    simp [dictInsert_apply, hne, hold]

/-- Witness for C1: a concrete fully-occupied state with id 7 on slot 0;
after the update for id 99, both 99 and 7 are bound to slot 0. -/
theorem overflow_reassigns_slot_zero_witness :
    (∀ r ∈ fullState.points, r.x ≠ -1) ∧
    fullState.id_to_point 99 = none ∧
    (process_set fullState 99 2 3 0 0 0).id_to_point 99 = some 0 ∧
    (process_set fullState 99 2 3 0 0 0).id_to_point 7 = some 0 := by
  have h := overflow_reassigns_slot_zero fullState 99 2 3 0 0 0 (by decide)
    (by decide) (by decide)
  exact ⟨by decide, by decide, h.1, (h.2.2.2 7 (by decide)).2⟩

/-- C2 counterexample: the claim fails as stated.  The single update event
`set 1 (-1) 0 0 0 0` is applied with every slot free (no overflow anywhere in
the trace), yet afterwards identifier 1 is bound to slot 0 while slot 0 is
unoccupied (`x = -1`), so the binding map is not a bijection between bound
identifiers and occupied slots. -/
theorem bijection_claim_refuted :
    ¬ (∀ (t : ℚ) (es : List Event), okRun (initState t) es = true →
        BindingBijection (run (initState t) es)) := by
  intro h
  obtain ⟨-, hbound, -⟩ := h 0 [Event.set 1 (-1) 0 0 0 0] (by decide)
  have h1 : (run (initState 0) [Event.set 1 (-1) 0 0 0 0]).id_to_point 1 = some 0 := by
    decide
  exact (hbound 1 0 h1).2 (by decide)

/-- C2 (amended): in every state reachable by update and liveness events in
which no update was applied while all slots were occupied AND no update
carried the occupancy sentinel `x = -1`, the binding map is a bijection
between the bound identifiers and the occupied slot indices. -/
theorem bijection_invariant_reachable (t : ℚ) (es : List Event)
    (hok : okRun (initState t) es = true)
    (hx : noSentinelX es = true) :
    BindingBijection (run (initState t) es) :=
  (run_inv es (initState t) (initState_inv t) hok hx).2

/-- Witness for C2 (amended) at a concrete one-event trace. -/
theorem bijection_invariant_reachable_witness :
    okRun (initState 0) [Event.set 1 2 3 0 0 0] = true ∧
    noSentinelX [Event.set 1 2 3 0 0 0] = true ∧
    BindingBijection (run (initState 0) [Event.set 1 2 3 0 0 0]) :=
  ⟨by decide, by decide, bijection_invariant_reachable 0 _ (by decide) (by decide)⟩

/-- C3 counterexample: the claim fails as stated.  In a (reachable, via the
overflow policy) state where ids 1 and 99 are both bound to slot 0 and both
active, `liveness({99})` removes id 1 and resets slot 0 — even though slot 0
is bound to id 99, which remains in the new active set. -/
theorem liveness_removal_claim_refuted :
    danglingState.id_to_point 99 = some 0 ∧
    (99 : Int) ∈ ({99} : Finset Int) ∧
    (process_alive danglingState {99}).id_to_point 99 = some 0 ∧
    (process_alive danglingState {99}).points.getD 0 emptyRecord ≠
      danglingState.points.getD 0 emptyRecord :=
  ⟨by decide, by decide, by decide, by decide⟩

/-- C3 (amended): provided the binding map is injective (no dangling shared
bindings), a liveness event with new active set S resets the slot and deletes
the binding of every removed id that has one, leaves the slots of bindings
whose ids remain (in S, or never active) unchanged, and stores S verbatim. -/
theorem liveness_removal (s : ConvState) (S : Finset Int)
    (hinj : ∀ a b i, s.id_to_point a = some i → s.id_to_point b = some i → a = b)
    (hlen : s.points.length = num_points)
    (hidx : ∀ a i, s.id_to_point a = some i → i < num_points) :
    (∀ a i, a ∈ s.active_ids → a ∉ S → s.id_to_point a = some i →
      (process_alive s S).points.getD i emptyRecord = emptyRecord ∧
      (process_alive s S).id_to_point a = none) ∧
    (∀ a i, s.id_to_point a = some i → (a ∈ S ∨ a ∉ s.active_ids) →
      (process_alive s S).points.getD i emptyRecord = s.points.getD i emptyRecord ∧
      (process_alive s S).id_to_point a = some i) ∧
    (process_alive s S).active_ids = S := by
  have hb : ∀ a j, s.id_to_point a = some j → j < s.points.length := by
    intro a j h
    rw [hlen]
    exact hidx a j h
  refine ⟨?_, ?_, process_alive_active s S⟩
  · intro a i hact hnot hmap
    constructor
    · rw [process_alive_points s S i hb,
        if_pos ⟨a, Finset.mem_sdiff.mpr ⟨hact, hnot⟩, hmap⟩]
    · rw [process_alive_id_to_point, if_pos ⟨hact, hnot⟩]
  · intro a i hmap hkeep
    have hnex : ¬ ∃ r ∈ s.active_ids \ S, s.id_to_point r = some i := by
      rintro ⟨r, hr, hmr⟩
      have hra : r = a := hinj r a i hmr hmap
      subst hra
      rw [Finset.mem_sdiff] at hr
      rcases hkeep with h | h
      · exact hr.2 h
      · exact h hr.1
    constructor
    · rw [process_alive_points s S i hb, if_neg hnex]
    · rw [process_alive_id_to_point]
      have hc : ¬(a ∈ s.active_ids ∧ a ∉ S) := by
        rintro ⟨h1, h2⟩
        exact hnex ⟨a, Finset.mem_sdiff.mpr ⟨h1, h2⟩, hmap⟩
      rw [if_neg hc]
      exact hmap

/-- Witness for C3 (amended): the spec's own test case — ids {1,2,3} bound to
slots {0,1,2}, `liveness({1,3})` resets slot 1, removes binding 2, leaves
slots 0 and 2 unchanged and stores {1,3}. -/
theorem threeBoundState_map (a : Int) : threeBoundState.id_to_point a =
    if a = 1 then some 0 else if a = 2 then some 1 else if a = 3 then some 2 else none := rfl

theorem threeBoundState_inj (a b : Int) (i : Nat)
    (ha : threeBoundState.id_to_point a = some i)
    (hb : threeBoundState.id_to_point b = some i) : a = b := by
  rw [threeBoundState_map] at ha hb
  split_ifs at ha hb <;> simp_all <;> omega

theorem threeBoundState_idx (a : Int) (i : Nat)
    (ha : threeBoundState.id_to_point a = some i) : i < num_points := by
  rw [threeBoundState_map] at ha
  split_ifs at ha <;> simp_all [num_points] <;> omega

theorem liveness_removal_witness :
    (process_alive threeBoundState {1, 3}).points.getD 1 emptyRecord = emptyRecord ∧
    (process_alive threeBoundState {1, 3}).id_to_point 2 = none ∧
    (process_alive threeBoundState {1, 3}).points.getD 0 emptyRecord =
      threeBoundState.points.getD 0 emptyRecord ∧
    (process_alive threeBoundState {1, 3}).points.getD 2 emptyRecord =
      threeBoundState.points.getD 2 emptyRecord ∧
    (process_alive threeBoundState {1, 3}).active_ids = {1, 3} := by
  have h := liveness_removal threeBoundState {1, 3} threeBoundState_inj (by decide)
    threeBoundState_idx
  exact ⟨(h.1 2 1 (by decide) (by decide) (by decide)).1,
    (h.1 2 1 (by decide) (by decide) (by decide)).2,
    (h.2.1 1 0 (by decide) (Or.inl (by decide))).1,
    (h.2.1 3 2 (by decide) (Or.inl (by decide))).1,
    h.2.2⟩

/-- C4 counterexample: at the claim's literal timings — last publish recorded
at t0 = 0, boundaries at t0, t0 + 5 ms and t0 + 6 ms (6 ms after the first) —
the gate publishes on none of the three boundaries (elapsed 0 ms, 5 ms, 6 ms
are all below the 10 ms interval), not on the first and third with two
publishes total as claimed. -/
theorem publish_throttling_claim_refuted :
    ¬ ((fseq_step 0 (initState 0)).2 = true ∧
       (fseq_step (5/1000) (fseq_step 0 (initState 0)).1).2 = false ∧
       (fseq_step (6/1000) (fseq_step (5/1000) (fseq_step 0 (initState 0)).1).1).2 = true) := by
  have e1 : fseq_step 0 (initState 0) = (initState 0, false) := by
    unfold fseq_step
    have hc : ¬ ((0 : ℚ) - (initState 0).last_send_time ≥ (initState 0).send_interval) := by
      show ¬ ((0 : ℚ) - 0 ≥ 1/100)
      norm_num
    rw [if_neg hc]
  intro h
  rw [e1] at h
  have e2 : fseq_step (5/1000) (initState 0, false).1 = (initState 0, false) := by
    unfold fseq_step
    have hc : ¬ ((5/1000 : ℚ) - (initState 0).last_send_time ≥ (initState 0).send_interval) := by
      show ¬ ((5/1000 : ℚ) - 0 ≥ 1/100)
      norm_num
    rw [if_neg hc]
  rw [e2] at h
  have e3 : fseq_step (6/1000) (initState 0, false).1 = (initState 0, false) := by
    unfold fseq_step
    have hc : ¬ ((6/1000 : ℚ) - (initState 0).last_send_time ≥ (initState 0).send_interval) := by
      show ¬ ((6/1000 : ℚ) - 0 ≥ 1/100)
      norm_num
    rw [if_neg hc]
  rw [e3] at h
  simp at h

/-- C4 (amended): with the 10 ms interval and the gate open at the first
boundary (at least 10 ms elapsed since the recorded last publish), a frame
boundary at t0 publishes and records t0, a second boundary 5 ms later does
not publish and has no side effect, and a third boundary 11 ms after the
first (6 ms after the second) publishes again: exactly two publishes. -/
theorem publish_throttling (s : ConvState) (t0 : ℚ)
    (hint : s.send_interval = 1/100)
    (hready : t0 - s.last_send_time ≥ 1/100) :
    handle_tuio_message t0 s [OscArg.str "fseq"] =
      Except.ok ({ s with last_send_time := t0 }, true) ∧
    handle_tuio_message (t0 + 5/1000) { s with last_send_time := t0 } [OscArg.str "fseq"] =
      Except.ok ({ s with last_send_time := t0 }, false) ∧
    handle_tuio_message (t0 + 11/1000) { s with last_send_time := t0 } [OscArg.str "fseq"] =
      Except.ok ({ s with last_send_time := t0 + 11/1000 }, true) := by
  have hh : ∀ (now : ℚ) (st : ConvState), handle_tuio_message now st [OscArg.str "fseq"] =
      Except.ok (fseq_step now st) := fun now st => rfl
  have h1 : fseq_step t0 s = ({ s with last_send_time := t0 }, true) := by
    unfold fseq_step
    rw [hint, if_pos hready]
  have h2 : fseq_step (t0 + 5/1000) { s with last_send_time := t0 } =
      ({ s with last_send_time := t0 }, false) := by
    unfold fseq_step
    have hc : ¬ (t0 + 5/1000 - ({ s with last_send_time := t0 } : ConvState).last_send_time ≥
        ({ s with last_send_time := t0 } : ConvState).send_interval) := by
      show ¬ (t0 + 5/1000 - t0 ≥ s.send_interval)
      rw [hint]
      intro hge
      have he : t0 + 5/1000 - t0 = 5/1000 := by ring
      rw [he] at hge
      norm_num at hge
    rw [if_neg hc]
  have h3 : fseq_step (t0 + 11/1000) { s with last_send_time := t0 } =
      ({ s with last_send_time := t0 + 11/1000 }, true) := by
    unfold fseq_step
    have hc : t0 + 11/1000 - ({ s with last_send_time := t0 } : ConvState).last_send_time ≥
        ({ s with last_send_time := t0 } : ConvState).send_interval := by
      show t0 + 11/1000 - t0 ≥ s.send_interval
      rw [hint]
      have he : t0 + 11/1000 - t0 = 11/1000 := by ring
      rw [he]
      norm_num
    rw [if_pos hc]
  rw [hh, hh, hh, h1, h2, h3]
  exact ⟨rfl, rfl, rfl⟩

/-- Witness for C4 (amended) at a concrete start state and t0 = 1. -/
theorem publish_throttling_witness :
    (initState 0).send_interval = 1/100 ∧
    (1 : ℚ) - (initState 0).last_send_time ≥ 1/100 ∧
    handle_tuio_message 1 (initState 0) [OscArg.str "fseq"] =
      Except.ok ({ initState 0 with last_send_time := 1 }, true) ∧
    handle_tuio_message (1 + 5/1000) { initState 0 with last_send_time := 1 }
      [OscArg.str "fseq"] = Except.ok ({ initState 0 with last_send_time := 1 }, false) ∧
    handle_tuio_message (1 + 11/1000) { initState 0 with last_send_time := 1 }
      [OscArg.str "fseq"] =
      Except.ok ({ initState 0 with last_send_time := 1 + 11/1000 }, true) := by
  have hready : (1 : ℚ) - (initState 0).last_send_time ≥ 1/100 := by
    show (1 : ℚ) - 0 ≥ 1/100
    norm_num
  have h := publish_throttling (initState 0) 1 rfl hready
  exact ⟨rfl, hready, h.1, h.2.1, h.2.2⟩

/-- C5 counterexample: a frame boundary observed at time 0 while the recorded
last publish is at time 1 (the clock ran backwards) is NOT treated as
"publish allowed": the gate suppresses the publish. -/
theorem clock_nonmonotonic_claim_refuted :
    ¬ ((fseq_step 0 { initState 0 with last_send_time := 1 }).2 = true) := by
  have e1 : fseq_step 0 { initState 0 with last_send_time := 1 } =
      ({ initState 0 with last_send_time := 1 }, false) := by
    unfold fseq_step
    have hc : ¬ ((0 : ℚ) -
        ({ initState 0 with last_send_time := 1 } : ConvState).last_send_time ≥
        ({ initState 0 with last_send_time := 1 } : ConvState).send_interval) := by
      show ¬ ((0 : ℚ) - 1 ≥ 1/100)
      norm_num
    rw [if_neg hc]
  rw [e1]
  simp

/-- C5 (amended): a frame boundary whose observed time is earlier than the
recorded last-publish time is treated like any not-yet-elapsed interval: the
publish is suppressed and the state is left unchanged. -/
theorem clock_nonmonotonic_suppresses (now : ℚ) (s : ConvState)
    (hint : s.send_interval = 1/100) (hpast : now < s.last_send_time) :
    handle_tuio_message now s [OscArg.str "fseq"] = Except.ok (s, false) := by
  have hh : handle_tuio_message now s [OscArg.str "fseq"] =
      Except.ok (fseq_step now s) := rfl
  rw [hh]
  unfold fseq_step
  have hc : ¬ (now - s.last_send_time ≥ s.send_interval) := by
    rw [hint]
    intro hge
    have h0 : now - s.last_send_time < 0 := by linarith
    linarith
  rw [if_neg hc]

/-- Witness for C5 (amended): boundary at time 0, last publish at time 1. -/
theorem clock_nonmonotonic_suppresses_witness :
    ({ initState 0 with last_send_time := 1 } : ConvState).send_interval = 1/100 ∧
    (0 : ℚ) < ({ initState 0 with last_send_time := 1 } : ConvState).last_send_time ∧
    handle_tuio_message 0 { initState 0 with last_send_time := 1 } [OscArg.str "fseq"] =
      Except.ok ({ initState 0 with last_send_time := 1 }, false) :=
  ⟨rfl, by norm_num, clock_nonmonotonic_suppresses 0 _ rfl (by norm_num)⟩

/-- A list element read in range is a member of the list. -/
theorem getD_mem : ∀ (l : List SlotRecord) (i : Nat) (d : SlotRecord),
    i < l.length → l.getD i d ∈ l
  | r :: _, 0, _, _ => List.mem_cons_self _ _
  | _ :: rest, i + 1, d, h =>
      List.mem_cons_of_mem _ (getD_mem rest i d (by simpa using h))

/-- C6 counterexample: the 0,1,2 assignment order for three fresh identifiers
with all slots empty is NOT independent of the update payloads: if the first
update carries x = -1, the slot it fills still reads as unoccupied, and the
second identifier is bound to slot 0 rather than slot 1. -/
theorem first_free_claim_refuted :
    ¬ (∀ (s : ConvState), s.points.length = num_points → (∀ r ∈ s.points, r.x = -1) →
        ∀ (id1 id2 id3 : Int) (x1 y1 vx1 vy1 a1 x2 y2 vx2 vy2 a2 x3 y3 vx3 vy3 a3 : ℚ),
          id1 ≠ id2 → id1 ≠ id3 → id2 ≠ id3 →
          s.id_to_point id1 = none → s.id_to_point id2 = none → s.id_to_point id3 = none →
          (process_set (process_set (process_set s id1 x1 y1 vx1 vy1 a1) id2 x2 y2 vx2 vy2 a2)
              id3 x3 y3 vx3 vy3 a3).id_to_point id1 = some 0 ∧
          (process_set (process_set (process_set s id1 x1 y1 vx1 vy1 a1) id2 x2 y2 vx2 vy2 a2)
              id3 x3 y3 vx3 vy3 a3).id_to_point id2 = some 1 ∧
          (process_set (process_set (process_set s id1 x1 y1 vx1 vy1 a1) id2 x2 y2 vx2 vy2 a2)
              id3 x3 y3 vx3 vy3 a3).id_to_point id3 = some 2) := by
  intro h
  have hc := (h (initState 0) (by decide) (by decide) 1 2 3 (-1) 0 0 0 0 2 2 0 0 0 3 3 0 0 0
    (by decide) (by decide) (by decide) (by decide) (by decide) (by decide)).2.1
  have he : (process_set (process_set (process_set (initState 0) 1 (-1) 0 0 0 0) 2 2 2 0 0 0)
      3 3 3 0 0 0).id_to_point 2 = some 0 := by decide
  rw [he] at hc
  simp at hc

/-- C6 (amended): a new identifier is always bound to the smallest-index
unoccupied slot; and with all slots unoccupied, three successive new distinct
identifiers whose updates do not carry the occupancy sentinel (x ≠ -1 for the
first two) are assigned slots 0, 1, 2 in arrival order, independent of the
identifiers' numeric values. -/
theorem first_free_allocation (s : ConvState) (hlen : s.points.length = num_points) :
    (∀ id x y vx vy a j, s.id_to_point id = none → j < num_points →
      (s.points.getD j emptyRecord).x = -1 →
      (∀ k, k < j → (s.points.getD k emptyRecord).x ≠ -1) →
      (process_set s id x y vx vy a).id_to_point id = some j) ∧
    (∀ id1 id2 id3 x1 y1 vx1 vy1 a1 x2 y2 vx2 vy2 a2 x3 y3 vx3 vy3 a3,
      (∀ r ∈ s.points, r.x = -1) →
      id1 ≠ id2 → id1 ≠ id3 → id2 ≠ id3 →
      s.id_to_point id1 = none → s.id_to_point id2 = none → s.id_to_point id3 = none →
      x1 ≠ -1 → x2 ≠ -1 →
      (process_set (process_set (process_set s id1 x1 y1 vx1 vy1 a1) id2 x2 y2 vx2 vy2 a2)
          id3 x3 y3 vx3 vy3 a3).id_to_point id1 = some 0 ∧
      (process_set (process_set (process_set s id1 x1 y1 vx1 vy1 a1) id2 x2 y2 vx2 vy2 a2)
          id3 x3 y3 vx3 vy3 a3).id_to_point id2 = some 1 ∧
      (process_set (process_set (process_set s id1 x1 y1 vx1 vy1 a1) id2 x2 y2 vx2 vy2 a2)
          id3 x3 y3 vx3 vy3 a3).id_to_point id3 = some 2) := by
  constructor
  · intro id x y vx vy a j hid hjn hfree hmin
    have hj : findFreeSlot s.points = some j :=
      findFreeSlot_eq_some _ j (by rw [hlen]; exact hjn) hfree hmin
    rw [process_set_free s id j x y vx vy a hid hj]
    simp [dictInsert_apply]
  · intro id1 id2 id3 x1 y1 vx1 vy1 a1 x2 y2 vx2 vy2 a2 x3 y3 vx3 vy3 a3
      hall h12 h13 h23 hid1 hid2 hid3 hx1 hx2
    have h20 : s.points.length = 20 := hlen
    have h0 : (0 : Nat) < s.points.length := by omega
    have h1 : (1 : Nat) < s.points.length := by omega
    have h2 : (2 : Nat) < s.points.length := by omega
    have hfs1 : findFreeSlot s.points = some 0 :=
      findFreeSlot_eq_some _ 0 h0 (hall _ (getD_mem _ _ _ h0))
        (fun k hk => absurd hk (by omega))
    have hm1 : ∀ b, (process_set s id1 x1 y1 vx1 vy1 a1).id_to_point b =
        if b = id1 then some 0 else s.id_to_point b := by
      intro b
      rw [process_set_free s id1 0 x1 y1 vx1 vy1 a1 hid1 hfs1]
      simp [dictInsert_apply]
    have hp1 : (process_set s id1 x1 y1 vx1 vy1 a1).points =
        s.points.set 0 ⟨x1, y1, vx1, vy1, a1⟩ := by
      rw [process_set_free s id1 0 x1 y1 vx1 vy1 a1 hid1 hfs1]
    have hid2a : (process_set s id1 x1 y1 vx1 vy1 a1).id_to_point id2 = none := by
      rw [hm1, if_neg (Ne.symm h12)]
      exact hid2
    have hfs2 : findFreeSlot (process_set s id1 x1 y1 vx1 vy1 a1).points = some 1 := by
      rw [hp1]
      apply findFreeSlot_eq_some
      · simpa using h1
      · rw [getD_set_ne _ _ _ _ _ (by omega)]
        exact hall _ (getD_mem _ _ _ h1)
      · intro k hk
        have hk0 : k = 0 := by omega
        subst hk0
        rw [getD_set_self _ _ _ _ h0]
        exact hx1
    have hm2 : ∀ b, (process_set (process_set s id1 x1 y1 vx1 vy1 a1)
        id2 x2 y2 vx2 vy2 a2).id_to_point b =
        if b = id2 then some 1
        else (process_set s id1 x1 y1 vx1 vy1 a1).id_to_point b := by
      intro b
      rw [process_set_free _ id2 1 x2 y2 vx2 vy2 a2 hid2a hfs2]
      simp [dictInsert_apply]
    have hp2 : (process_set (process_set s id1 x1 y1 vx1 vy1 a1)
        id2 x2 y2 vx2 vy2 a2).points =
        (s.points.set 0 ⟨x1, y1, vx1, vy1, a1⟩).set 1 ⟨x2, y2, vx2, vy2, a2⟩ := by
      rw [process_set_free _ id2 1 x2 y2 vx2 vy2 a2 hid2a hfs2, hp1]
    have hid3a : (process_set (process_set s id1 x1 y1 vx1 vy1 a1)
        id2 x2 y2 vx2 vy2 a2).id_to_point id3 = none := by
      rw [hm2, if_neg (Ne.symm h23), hm1, if_neg (Ne.symm h13)]
      exact hid3
    have hfs3 : findFreeSlot (process_set (process_set s id1 x1 y1 vx1 vy1 a1)
        id2 x2 y2 vx2 vy2 a2).points = some 2 := by
      rw [hp2]
      apply findFreeSlot_eq_some
      · simpa using h2
      · rw [getD_set_ne _ _ _ _ _ (by omega), getD_set_ne _ _ _ _ _ (by omega)]
        exact hall _ (getD_mem _ _ _ h2)
      · intro k hk
        rcases (by omega : k = 0 ∨ k = 1) with hk0 | hk1
        · subst hk0
          rw [getD_set_ne _ _ _ _ _ (by omega), getD_set_self _ _ _ _ h0]
          exact hx1
        · subst hk1
          rw [getD_set_self _ _ _ _ (by simpa using h1)]
          exact hx2
    have hm3 : ∀ b, (process_set (process_set (process_set s id1 x1 y1 vx1 vy1 a1)
        id2 x2 y2 vx2 vy2 a2) id3 x3 y3 vx3 vy3 a3).id_to_point b =
        if b = id3 then some 2
        else (process_set (process_set s id1 x1 y1 vx1 vy1 a1)
          id2 x2 y2 vx2 vy2 a2).id_to_point b := by
      intro b
      rw [process_set_free _ id3 2 x3 y3 vx3 vy3 a3 hid3a hfs3]
      simp [dictInsert_apply]
    refine ⟨?_, ?_, ?_⟩
    · rw [hm3, if_neg h13, hm2, if_neg h12, hm1, if_pos rfl]
    · rw [hm3, if_neg h23, hm2, if_pos rfl]
    · rw [hm3, if_pos rfl]

/-- Witness for C6 (amended): ids 5, 10, 15 starting from the initial state
are assigned slots 0, 1, 2. -/
theorem first_free_allocation_witness :
    (process_set (process_set (process_set (initState 0) 5 1 1 0 0 0) 10 2 2 0 0 0)
        15 3 3 0 0 0).id_to_point 5 = some 0 ∧
    (process_set (process_set (process_set (initState 0) 5 1 1 0 0 0) 10 2 2 0 0 0)
        15 3 3 0 0 0).id_to_point 10 = some 1 ∧
    (process_set (process_set (process_set (initState 0) 5 1 1 0 0 0) 10 2 2 0 0 0)
        15 3 3 0 0 0).id_to_point 15 = some 2 := by
  have h := (first_free_allocation (initState 0) (by decide)).2 5 10 15
    1 1 0 0 0 2 2 0 0 0 3 3 0 0 0 (by decide) (by decide) (by decide) (by decide)
    (by decide) (by decide) (by decide) (by decide) (by decide)
  exact ⟨h.1, h.2.1, h.2.2⟩

/-- C7: applying the same update twice in immediate succession leaves the
Slot Table exactly as applying it once — on the refresh path, the free-slot
path and the overflow path alike (the second application always takes the
refresh path and rewrites the same record). -/
theorem update_idempotent (s : ConvState) (id : Int) (x y vx vy a : ℚ) :
    (process_set (process_set s id x y vx vy a) id x y vx vy a).points =
      (process_set s id x y vx vy a).points := by
  cases hm : s.id_to_point id with
  | some i =>
    rw [process_set_bound s id i x y vx vy a hm]
    have hm2 : ({ s with points := s.points.set i ⟨x, y, vx, vy, a⟩ } :
        ConvState).id_to_point id = some i := hm
    rw [process_set_bound _ id i x y vx vy a hm2]
    show (s.points.set i ⟨x, y, vx, vy, a⟩).set i ⟨x, y, vx, vy, a⟩ =
      s.points.set i ⟨x, y, vx, vy, a⟩
    exact List.set_set _ _ _ _
  | none =>
    cases hf : findFreeSlot s.points with
    | some j =>
      rw [process_set_free s id j x y vx vy a hm hf]
      have hm2 : ({ s with
          id_to_point := dictInsert s.id_to_point id j
          points := s.points.set j ⟨x, y, vx, vy, a⟩
          active_ids := insert id s.active_ids } : ConvState).id_to_point id = some j := by
        simp [dictInsert_apply]
      rw [process_set_bound _ id j x y vx vy a hm2]
      show (s.points.set j ⟨x, y, vx, vy, a⟩).set j ⟨x, y, vx, vy, a⟩ =
        s.points.set j ⟨x, y, vx, vy, a⟩
      exact List.set_set _ _ _ _
    | none =>
      rw [process_set_overflow s id x y vx vy a hm hf]
      have hm2 : ({ s with
          id_to_point := dictInsert s.id_to_point id 0
          points := s.points.set 0 ⟨x, y, vx, vy, a⟩
          active_ids := insert id s.active_ids } : ConvState).id_to_point id = some 0 := by
        simp [dictInsert_apply]
      rw [process_set_bound _ id 0 x y vx vy a hm2]
      show (s.points.set 0 ⟨x, y, vx, vy, a⟩).set 0 ⟨x, y, vx, vy, a⟩ =
        s.points.set 0 ⟨x, y, vx, vy, a⟩
      exact List.set_set _ _ _ _

/-- C8: a `set` message whose decoder produced fewer than the six required
data fields is silently ignored: no error is raised and the whole state —
Slot Table, Identifier Binding map and Active-Identifier Set — is returned
unchanged, with no publish. -/
theorem short_set_ignored (now : ℚ) (s : ConvState) (rest : List OscArg)
    (hshort : rest.length < 6) :
    handle_tuio_message now s (OscArg.str "set" :: rest) = Except.ok (s, false) := by
  match rest, hshort with
  | [], _ => rfl
  | [a1], _ => rfl
  | [a1, a2], _ => rfl
  | [a1, a2, a3], _ => rfl
  | [a1, a2, a3, a4], _ => rfl
  | [a1, a2, a3, a4, a5], _ => rfl
  | a1 :: a2 :: a3 :: a4 :: a5 :: a6 :: tail, h =>
    exact absurd h (by simp only [List.length_cons]; omega)

/-- Witness for C8: a `set` message carrying only two data fields leaves the
initial state untouched. -/
theorem short_set_ignored_witness :
    ([OscArg.num 1, OscArg.num 2] : List OscArg).length < 6 ∧
    handle_tuio_message 0 (initState 0) (OscArg.str "set" :: [OscArg.num 1, OscArg.num 2]) =
      Except.ok (initState 0, false) :=
  ⟨by decide, short_set_ignored 0 (initState 0) [OscArg.num 1, OscArg.num 2] (by decide)⟩

/-- C9 counterexample: an update for a fresh identifier DOES mutate the
Active-Identifier Set — applying `update(1, 2, 3, 0, 0, 0)` to the initial
state turns the empty active set into {1}, contradicting the claim that the
active set is the same before and after every update. -/
theorem update_active_set_claim_refuted :
    ¬ (∀ (s : ConvState) (id : Int) (x y vx vy a : ℚ),
        (process_set s id x y vx vy a).active_ids = s.active_ids) := by
  intro h
  have h1 := h (initState 0) 1 2 3 0 0 0
  have h2 : (1 : Int) ∈ (process_set (initState 0) 1 2 3 0 0 0).active_ids := by decide
  rw [h1] at h2
  exact absurd h2 (by decide)

/-- C9 (amended): applyUpdate's side effects are confined to the Slot Table,
the Identifier Binding map and the Active-Identifier Set: the refresh path
leaves the active set unchanged while both new-binding paths (free slot and
overflow) insert the identifier into it; the publish-gate clock fields are
never touched. -/
theorem update_side_effects (s : ConvState) (id : Int) (x y vx vy a : ℚ) :
    (process_set s id x y vx vy a).active_ids =
      (if s.id_to_point id = none then insert id s.active_ids else s.active_ids) ∧
    (process_set s id x y vx vy a).last_send_time = s.last_send_time ∧
    (process_set s id x y vx vy a).send_interval = s.send_interval := by
  cases hm : s.id_to_point id with
  | some i =>
    rw [process_set_bound s id i x y vx vy a hm]
    simp [hm]
  | none =>
    cases hf : findFreeSlot s.points with
    | some j =>
      rw [process_set_free s id j x y vx vy a hm hf]
      simp [hm]
    | none =>
      rw [process_set_overflow s id x y vx vy a hm hf]
      simp [hm]

/-- The event trace exhibiting the sentinel-x double binding: id 1 appears,
then refreshes with x = -1, then fresh id 2 appears. -/
def sentinelTrace : List Event :=
  [Event.set 1 2 2 0 0 0, Event.set 1 (-1) 2 0 0 0, Event.set 2 3 3 0 0 0]

/-- C10: at the public update interface, an update carrying x = -1 for the
already-bound id 1 writes the sentinel into its slot, after which the
allocator treats slot 0 as unoccupied: the subsequent update for fresh id 2
binds 2 to slot 0 while 1 stays bound to it — two identifiers on one slot —
and a free slot existed before every update (the all-slots-occupied overflow
case never arises, as okRun certifies). -/
theorem sentinel_update_double_binding :
    okRun (initState 0) sentinelTrace = true ∧
    ((run (initState 0) (sentinelTrace.take 2)).points.getD 0 emptyRecord).x = -1 ∧
    (run (initState 0) sentinelTrace).id_to_point 1 = some 0 ∧
    (run (initState 0) sentinelTrace).id_to_point 2 = some 0 :=
  ⟨by decide, by decide, by decide, by decide⟩

end Tuio2
